import Mathlib

/-!
Verification of the trelloapi navigation engine (`trelloapi/api.py`) and of the
offline endpoint-tree builder (`trelloapi/make_endpoints.py`).

The Python code is shallowly embedded: dictionaries become association lists in
insertion order, Python values that flow into URL segments are modelled by
their `str()` rendering together with their truthiness, and the external
base64+gzip documentation pipeline is modelled by its observable behaviour
(a blob either decodes to a text or raises).  Every definition below is
translated from the corresponding Python function; source locations are cited
in the doc comments.
-/

set_option maxHeartbeats 1000000

/-- Python `sep.join(l)` for a list of strings. -/
def pyJoin (sep : String) : List String → String
  | [] => ""
  | [x] => x
  | x :: y :: rest => x ++ sep ++ pyJoin sep (y :: rest)

/-- Python dict lookup `d[k]` on an insertion-ordered association list
(`none` models a `KeyError`). -/
def pyLookup {α : Type} : List (String × α) → String → Option α
  | [], _ => none
  | kv :: rest, k => if kv.1 == k then some kv.2 else pyLookup rest k

/-- Python `d[k] = v` / `d.update({k: v})` on an insertion-ordered association
list: an existing key keeps its position and gets the new value, a new key is
appended at the end. -/
def pyDictSet {α : Type} : List (String × α) → String → α → List (String × α)
  | [], k, v => [(k, v)]
  | kv :: rest, k, v => if kv.1 == k then (k, v) :: rest else kv :: pyDictSet rest k v

/-- Python `s.startswith(c)` for a single character. -/
def startsWithChar (s : String) (c : Char) : Bool :=
  match s.toList with
  | [] => false
  | a :: _ => a == c

/-- Python `s.endswith(c)` for a single character. -/
def endsWithChar (s : String) (c : Char) : Bool :=
  match s.toList.reverse with
  | [] => false
  | a :: _ => a == c

/-- Python `s.strip(c)` for a single character: drop every leading and
trailing occurrence of `c`. -/
def pyStripChar (c : Char) (s : String) : String :=
  String.mk (((s.toList.dropWhile (· == c)).reverse.dropWhile (· == c)).reverse)

/-- Python `s.lower()` (ASCII, as used on HTTP verb names). -/
def pyLower (s : String) : String :=
  String.mk (s.toList.map Char.toLower)

/-- A Python value as `api.py` observes it: its `str()` rendering and its
truthiness (`if self._api_arg:` tests the latter, `str(self._api_arg)` uses
the former). -/
structure PyVal where
  toStr : String
  truthy : Bool
deriving DecidableEq, Repr

/-- A Python string as a `PyVal`: a string is truthy iff it is nonempty. -/
def PyVal.ofString (s : String) : PyVal := ⟨s, s != ""⟩

/-- A documentation blob (`base64(gzip(utf8(text)))` in the schema), modelled
by the observable behaviour of the external decode pipeline: the blob either
decodes to a text or the pipeline raises. -/
inductive Blob where
  | good (text : String)
  | bad
deriving DecidableEq, Repr

/-- The Python exceptions the embedded code can raise.  `valueErrorMissing`,
`valueErrorTooMany` and `valueErrorUnknown` are the three `ValueError`s of
`TrelloAPI.__call__` (api.py lines 104-118); `keyError` models a failing dict
index; `decodeError` models a failing base64/gzip decode inside
`_unpack_doc`; `typeError` models iterating an object of the wrong shape in
`__init__`. -/
inductive PyErr where
  | valueErrorMissing (msg : String)
  | valueErrorTooMany
  | valueErrorUnknown (ks : List String)
  | keyError (k : String)
  | decodeError
  | typeError
deriving DecidableEq, Repr

/-- A value of the endpoint mapping (`endpoints.yaml`, §6.1 of the spec):
either the pair list stored under a `METHODS` key, or a nested sub-mapping. -/
inductive SchemaVal where
  | methodsVal (ms : List (String × Blob))
  | nodeVal (entries : List (String × SchemaVal))

/-- A `TrelloAPI` instance (api.py lines 31-45): the five fields assigned at
the start of `__init__`, before the attribute-installing loop.  Dynamic
attributes and `_allowed_args` are pure functions of these fields and are
recomputed on demand below. -/
inductive Navigator where
  | mk (endpoints : List (String × SchemaVal)) (name : String) (apikey : String)
       (parent : Option Navigator) (api_arg : Option PyVal)

def Navigator.endpoints : Navigator → List (String × SchemaVal)
  | .mk es _ _ _ _ => es

def Navigator.name : Navigator → String
  | .mk _ n _ _ _ => n

def Navigator.apikey : Navigator → String
  | .mk _ _ k _ _ => k

def Navigator.parent : Navigator → Option Navigator
  | .mk _ _ _ p _ => p

def Navigator.api_arg : Navigator → Option PyVal
  | .mk _ _ _ _ a => a

/-- `TrelloAPI._unpack_doc` (api.py lines 59-61):
`gzip.decompress(b64decode(b64)).decode('utf-8')`. -/
def unpack_doc : Blob → Except PyErr String
  | .good s => .ok s
  | .bad => .error .decodeError

/-- The decoding performed by the `METHODS` branch of `__init__` (api.py
lines 42-47): `_unpack_doc` is applied to the doc blob of every pair, in
order; the first failure aborts construction. -/
def decodeDocs : List (String × Blob) → Except PyErr Unit
  | [] => .ok ()
  | md :: rest =>
    match unpack_doc md.2 with
    | .ok _ => decodeDocs rest
    | .error e => .error e

mutual

/-- Construction check for one child value: a static sub-path must be a
mapping (a list would make `.items()` in the child's `__init__` raise). -/
def checkVal : SchemaVal → Except PyErr Unit
  | .methodsVal _ => .error .typeError
  | .nodeVal es => checkEntries es

/-- The work one iteration of the `__init__` loop (api.py lines 40-57)
performs for entry `(k, v)`: decode every doc blob of a `METHODS` entry,
skip a parameter key (it only feeds `_allowed_args`), recursively construct
a static child. -/
def checkStep (k : String) (v : SchemaVal) : Except PyErr Unit :=
  if k == "METHODS" then
    match v with
    | .methodsVal ms => decodeDocs ms
    | .nodeVal _ => .error .typeError
  else if startsWithChar k '_' && endsWithChar k '_' then .ok ()
  else checkVal v

/-- The whole `__init__` loop, in mapping iteration order; the first
exception aborts construction. -/
def checkEntries : List (String × SchemaVal) → Except PyErr Unit
  | [] => .ok ()
  | (k, v) :: rest =>
    match checkStep k v with
    | .error e => .error e
    | .ok _ => checkEntries rest

end

/-- `TrelloAPI(endpoints, name, apikey, parent, api_arg)` (api.py lines
31-57): the constructor eagerly walks the whole mapping (decoding every doc
blob and building every static child); when that succeeds the resulting
object is determined by the five stored fields. -/
def TrelloAPI.init (v : SchemaVal) (name apikey : String)
    (parent : Option Navigator) (api_arg : Option PyVal) : Except PyErr Navigator :=
  match v with
  | .nodeVal es =>
    match checkEntries es with
    | .ok _ => .ok (.mk es name apikey parent api_arg)
    | .error e => .error e
  | .methodsVal _ => .error .typeError

/-- `self._allowed_args` (api.py lines 37, 48-50): the stripped names of the
keys that start and end with an underscore, in mapping order.  (`'METHODS'`
is consumed by the earlier branch; `str.strip('_')` removes every leading and
trailing underscore.) -/
def allowedArgs (es : List (String × SchemaVal)) : List String :=
  es.filterMap (fun kv =>
    if kv.1 != "METHODS" && startsWithChar kv.1 '_' && endsWithChar kv.1 '_'
    then some (pyStripChar '_' kv.1) else none)

/-- The `mypart` computation of `TrelloAPI._url` (api.py lines 79-83):
`str(self._api_arg)` if `self._api_arg` is truthy, else `self._name`. -/
def mypartOf (name : String) (api_arg : Option PyVal) : String :=
  match api_arg with
  | some v => if v.truthy then v.toStr else name
  | none => name

/-- `TrelloAPI._url` (api.py lines 63-87): the node's own part, joined onto
the parent's URL with `'/'.join(filter(None, [...]))`. -/
def Navigator.url : Navigator → String
  | .mk _ name _ none api_arg => mypartOf name api_arg
  | .mk _ name _ (some p) api_arg =>
    pyJoin "/" ([p.url, mypartOf name api_arg].filter (· != ""))

/-- The chain of `mypart` segments from the root down to this navigator
(root first).  This is a specification-side view of the parent chain; `_url`
is proved below to be the `/`-join of its nonempty elements. -/
def Navigator.chain : Navigator → List String
  | .mk _ name _ none api_arg => [mypartOf name api_arg]
  | .mk _ name _ (some p) api_arg => p.chain ++ [mypartOf name api_arg]

/-- `TrelloAPI.__call__` (api.py lines 99-118).  The keyword arguments of one
Python call form a dict, modelled as a list of distinct keyed pairs in call
order.  `set(kwargs.keys()) <= set(self._allowed_args)` for the surviving
single-argument case is membership of that argument's name. -/
def Navigator.call (nav : Navigator) (kwargs : List (String × PyVal)) :
    Except PyErr Navigator :=
  match kwargs with
  | [] =>
    .error (.valueErrorMissing
      ("A keyword argument must be provided: " ++ pyJoin ", " (allowedArgs nav.endpoints)))
  | [(k, v)] =>
    if (allowedArgs nav.endpoints).contains k then
      match pyLookup nav.endpoints ("_" ++ k ++ "_") with
      | some sub => TrelloAPI.init sub ("_" ++ k ++ "_") nav.apikey (some nav) (some v)
      | none => .error (.keyError ("_" ++ k ++ "_"))
    else .error (.valueErrorUnknown [k])
  | _ :: _ :: _ => .error .valueErrorTooMany

/-- A dynamic attribute installed by `__init__`: either the bound
`partial(self._api_call, name)` carrying the lowercased verb and its doc
blob, or a child `TrelloAPI`. -/
inductive Attr where
  | method (verbLower : String) (doc : Blob)
  | child (nav : Navigator)

/-- The attributes one iteration of the `__init__` loop (api.py lines 40-57)
installs for entry `(k, v)`: for a `METHODS` entry one bound method per pair,
named by the lowercased verb; for a parameter key nothing; for any other key
a child navigator with `parent := self`. -/
def attrBlock (apikey : String) (self : Navigator) (k : String) (v : SchemaVal) :
    List (String × Attr) :=
  if k == "METHODS" then
    match v with
    | .methodsVal ms => ms.map (fun md => (pyLower md.1, Attr.method (pyLower md.1) md.2))
    | .nodeVal _ => []
  else if startsWithChar k '_' && endsWithChar k '_' then []
  else
    match v with
    | .nodeVal es => [(k, Attr.child (.mk es k apikey (some self) none))]
    | .methodsVal _ => []

/-- All attributes installed by the `__init__` loop, in installation order. -/
def attrsOfEntries (apikey : String) (self : Navigator) :
    List (String × SchemaVal) → List (String × Attr)
  | [] => []
  | (k, v) :: rest => attrBlock apikey self k v ++ attrsOfEntries apikey self rest

/-- Python attribute lookup over repeated `setattr`s: the last assignment to
a name wins. -/
def lookupLast : List (String × Attr) → String → Option Attr
  | [], _ => none
  | (k, v) :: rest, a =>
    match lookupLast rest a with
    | some r => some r
    | none => if k == a then some v else none

/-- `getattr(nav, a)` restricted to the dynamically installed attributes. -/
def getattrN (nav : Navigator) (a : String) : Option Attr :=
  lookupLast (attrsOfEntries nav.apikey nav nav.endpoints) a

/-- Static descent `nav.a`: the attribute must resolve to a child
navigator. -/
def Navigator.descend (nav : Navigator) (a : String) : Option Navigator :=
  match getattrN nav a with
  | some (.child c) => some c
  | _ => none

/-- Iterated static descent. -/
def chainDescend : Navigator → List String → Option Navigator
  | nav, [] => some nav
  | nav, a :: rest =>
    match nav.descend a with
    | some c => chainDescend c rest
    | none => none

/-- `TRELLO_URL` (api.py line 16). -/
def TRELLO_URL : String := "https://trello.com/"

/-- The single HTTP request `TrelloAPI._api_call` (api.py lines 89-97) hands
to the `requests` transport: the lowercased verb, the absolute URL and the
merged query-parameter mapping. -/
structure Request where
  method : String
  url : String
  params : List (String × PyVal)
deriving DecidableEq, Repr

/-- `TrelloAPI._api_call` (api.py lines 89-97), restricted to its observable
data: `kwargs.setdefault('params', {}).update({'key': self._apikey})` merges
the API key into the caller's own `params` dict (creating a fresh one when
absent), then exactly one transport call is made with the absolute URL.  The
first component is the caller's `params` mapping after the call (the update
happens in place on the very dict the caller passed); the second is the
request handed to the transport. -/
def apiCall (nav : Navigator) (methodName : String)
    (params? : Option (List (String × PyVal))) :
    Option (List (String × PyVal)) × Request :=
  let merged := pyDictSet (params?.getD []) "key" (PyVal.ofString nav.apikey)
  (params?.map (fun _ => merged),
   { method := methodName, url := TRELLO_URL ++ nav.url, params := merged })

/-- The outcome of accessing attribute `a` on a navigator and treating it as
an HTTP method: the bound method fires `_api_call` (one transport request); a
static child resolves to a navigator instead; a missing attribute raises
`AttributeError`. -/
inductive Dispatch where
  | request (req : Request) (callerParams : Option (List (String × PyVal)))
  | navigator (child : Navigator)
  | attributeError

def Dispatch.isRequest : Dispatch → Bool
  | .request _ _ => true
  | _ => false

def Dispatch.isAttrError : Dispatch → Bool
  | .attributeError => true
  | _ => false

/-- Method dispatch `nav.<a>(params=...)` as the code resolves it: plain
attribute lookup followed by the bound `_api_call` when the attribute is a
generated method. -/
def Navigator.dispatch (nav : Navigator) (a : String)
    (params? : Option (List (String × PyVal))) : Dispatch :=
  match getattrN nav a with
  | some (.method mn _) =>
    let r := apiCall nav mn params?
    .request r.2 r.1
  | some (.child c) => .navigator c
  | none => .attributeError

/-- Method dispatch parametrised by the transport: when the attribute is a
generated method, the transport is applied to exactly the one request
`_api_call` builds and its response is returned unmodified. -/
def Navigator.dispatchWith {α : Type} (transport : Request → α) (nav : Navigator)
    (a : String) (params? : Option (List (String × PyVal))) : Option α :=
  match getattrN nav a with
  | some (.method mn _) => some (transport (apiCall nav mn params?).2)
  | _ => none

/-- The `METHODS` pair list of a node, as the spec's `methods(node)` query:
the value stored under the `'METHODS'` key, empty when absent. -/
def methodsOf (es : List (String × SchemaVal)) : List (String × Blob) :=
  match pyLookup es "METHODS" with
  | some (.methodsVal ms) => ms
  | _ => []

/-- All `(verb, doc)` pairs contributed to the attribute namespace by
`METHODS` entries (coincides with `methodsOf` on duplicate-free mappings,
i.e. on every real Python dict). -/
def methodsPairs : List (String × SchemaVal) → List (String × Blob)
  | [] => []
  | (k, v) :: rest =>
    (if k == "METHODS" then
      match v with
      | .methodsVal ms => ms
      | .nodeVal _ => []
    else []) ++ methodsPairs rest

/-- `generate_api(version)` (api.py lines 124-136): the factory indexes
`ENDPOINTS[version]` and builds the root navigator with the version string as
its name and no parent. -/
def generate_api (ENDPOINTS : List (String × SchemaVal)) (version : String)
    (key : String) : Except PyErr Navigator :=
  match pyLookup ENDPOINTS version with
  | some v => TrelloAPI.init v version key none none
  | none => .error (.keyError version)

/-- The `upper2underscore` generator inside `_camelcase_to_underscore`
(make_endpoints.py lines 52-68): a lowercase letter passes through, any other
character becomes `'_'`, followed by its lowercase form when it is a
letter. -/
def upper2underscore : List Char → List Char
  | [] => []
  | ch :: rest =>
    (if ch.isLower then [ch] else '_' :: (if ch.isAlpha then [ch.toLower] else []))
      ++ upper2underscore rest

/-- `_camelcase_to_underscore` (make_endpoints.py lines 52-68). -/
def camelcaseToUnderscore (url : String) : String :=
  String.mk (upper2underscore url.toList)

/-- Python `s.split('/')` on the character level. -/
def splitOnChar (c : Char) : List Char → List (List Char)
  | [] => [[]]
  | a :: rest =>
    match splitOnChar c rest with
    | [] => [[]]
    | g :: gs => if a == c then [] :: g :: gs else (a :: g) :: gs

/-- Python `url.strip('/').split('/')` (make_endpoints.py line 87). -/
def pySplitPath (u : String) : List String :=
  (splitOnChar '/' (pyStripChar '/' u).toList).map String.mk

/-- The method-attaching tail of `create_tree` (make_endpoints.py lines
102-107).  The guard `if not method in here['METHODS']` compares the method
string against `[method, doc]` pairs and therefore never fires, so a new pair
is always appended. -/
def attachMethod (es : List (String × SchemaVal)) (m : String) (d : Blob) :
    List (String × SchemaVal) :=
  match pyLookup es "METHODS" with
  | none => pyDictSet es "METHODS" (.methodsVal [(m, d)])
  | some (.methodsVal ms) => pyDictSet es "METHODS" (.methodsVal (ms ++ [(m, d)]))
  | some (.nodeVal _) => es

/-- The per-segment walk of `create_tree` (make_endpoints.py lines 97-107):
each remaining URL segment is camelCase-normalized, `setdefault`-ed to a
fresh sub-mapping, and descended into; the method pair is attached at the
leaf.  (The `methodsVal` fallback below is unreachable for trees this
builder produces, whose non-`METHODS` values are always mappings.) -/
def descendTree (es : List (String × SchemaVal)) :
    List String → String → Blob → List (String × SchemaVal)
  | [], m, d => attachMethod es m d
  | p :: rest, m, d =>
    let part := camelcaseToUnderscore p
    let sub :=
      match pyLookup es part with
      | some (.nodeVal es') => es'
      | some (.methodsVal _) => []
      | none => []
    pyDictSet es part (.nodeVal (descendTree sub rest m d))

/-- One iteration of the `create_tree` loop (make_endpoints.py lines 87-107):
split the URL, `setdefault` the unnormalized version segment, then walk the
remaining segments. -/
def insertEndpoint (tree : List (String × SchemaVal)) (m u : String) (d : Blob) :
    List (String × SchemaVal) :=
  match pySplitPath u with
  | [] => tree
  | version :: rest =>
    let sub :=
      match pyLookup tree version with
      | some (.nodeVal es') => es'
      | some (.methodsVal _) => []
      | none => []
    pyDictSet tree version (.nodeVal (descendTree sub rest m d))

/-- `create_tree(endpoints)` (make_endpoints.py lines 71-108). -/
def create_tree (endpoints : List (String × String × Blob)) :
    List (String × SchemaVal) :=
  endpoints.foldl (fun t e => insertEndpoint t e.1 e.2.1 e.2.2) []

/-- A string in camelCase-normalized form: only lowercase ASCII letters and
underscores (exactly the characters `upper2underscore` can emit). -/
def normalizedChars (s : String) : Bool :=
  s.toList.all (fun c => c.isLower || c == '_')

mutual

/-- Conformance of one interior value to the §6.1 schema format. -/
def interiorOkVal : SchemaVal → Bool
  | .methodsVal _ => false
  | .nodeVal es => interiorOkEntries es

/-- Conformance of one interior entry to the §6.1 schema format. -/
def interiorOkStep (k : String) (v : SchemaVal) : Bool :=
  if k == "METHODS" then
    match v with
    | .methodsVal _ => true
    | .nodeVal _ => false
  else normalizedChars k && interiorOkVal v

/-- Conformance of an interior mapping to the §6.1 schema format: every key
is either `'METHODS'` holding the pair list, or a camelCase-normalized
segment name holding a conforming sub-mapping. -/
def interiorOkEntries : List (String × SchemaVal) → Bool
  | [] => true
  | (k, v) :: rest => interiorOkStep k v && interiorOkEntries rest

end

mutual

/-- Whether a mapping's subtree, restricted to the parts `__init__` eagerly
walks (every `METHODS` pair here and below every static child — parameter
subtrees are only constructed later, by `__call__`), contains a doc blob the
decode pipeline rejects. -/
def hasBadBlobVal : SchemaVal → Bool
  | .methodsVal _ => false
  | .nodeVal es => hasBadBlobEntries es

def hasBadBlobStep (k : String) (v : SchemaVal) : Bool :=
  if k == "METHODS" then
    match v with
    | .methodsVal ms => ms.any (fun md => md.2 == Blob.bad)
    | .nodeVal _ => false
  else if startsWithChar k '_' && endsWithChar k '_' then false
  else hasBadBlobVal v

def hasBadBlobEntries : List (String × SchemaVal) → Bool
  | [] => false
  | (k, v) :: rest => hasBadBlobStep k v || hasBadBlobEntries rest

end

theorem strAppend_ne_empty_left (a b : String) (h : a ≠ "") : a ++ b ≠ "" := by
  intro hab
  apply h
  have hd := congrArg String.data hab
  rw [String.data_append] at hd
  have ha : a.data = [] := (List.append_eq_nil.mp hd).1
  exact String.ext_iff.mpr ha

theorem pyJoin_append_singleton (l : List String) (s : String) (h : l ≠ []) :
    pyJoin "/" (l ++ [s]) = pyJoin "/" l ++ "/" ++ s := by
  induction l with
  | nil => exact absurd rfl h
  | cons x xs ih =>
    cases xs with
    | nil => rfl
    | cons y ys =>
      have ih' := ih (List.cons_ne_nil y ys)
      simp only [List.cons_append] at ih' ⊢
      simp only [pyJoin] at ih' ⊢
      rw [ih']
      simp [String.append_assoc]

theorem pyJoin_ne_empty (l : List String) (hne : l ≠ []) (h : ∀ x ∈ l, x ≠ "") :
    pyJoin "/" l ≠ "" := by
  cases l with
  | nil => exact absurd rfl hne
  | cons x xs =>
    cases xs with
    | nil => exact h x (List.mem_singleton.mpr rfl)
    | cons y ys =>
      show x ++ "/" ++ pyJoin "/" (y :: ys) ≠ ""
      exact strAppend_ne_empty_left _ _
        (strAppend_ne_empty_left x "/" (h x (List.mem_cons_self x _)))

theorem pyJoin_filter_single (u : String) :
    pyJoin "/" ([u].filter (· != "")) = u := by
  by_cases hu : u = ""
  · subst hu; rfl
  · have : (u != "") = true := bne_iff_ne.mpr hu
    simp [List.filter, this, pyJoin]

theorem filter_mem_ne_empty (l : List String) (x : String)
    (hx : x ∈ l.filter (· != "")) : x ≠ "" := by
  have := (List.mem_filter.mp hx).2
  exact bne_iff_ne.mp this

/-- `_url` is exactly the `/`-join of the nonempty `mypart` segments on the
chain from the root to the navigator, in root-to-leaf order. -/
theorem Navigator.url_eq_chain : ∀ (nav : Navigator),
    nav.url = pyJoin "/" (nav.chain.filter (· != ""))
  | .mk es name key none arg => by
    show mypartOf name arg = pyJoin "/" ([mypartOf name arg].filter (· != ""))
    exact (pyJoin_filter_single _).symm
  | .mk es name key (some p) arg => by
    have ih := Navigator.url_eq_chain p
    show pyJoin "/" ([p.url, mypartOf name arg].filter (· != ""))
        = pyJoin "/" ((p.chain ++ [mypartOf name arg]).filter (· != ""))
    rw [List.filter_append]
    set m := mypartOf name arg with hm
    by_cases hme : m = ""
    · have : (m != "") = false := by simp [hme]
      simp only [List.filter, this]
      rw [List.append_nil]
      rw [← ih]
      exact pyJoin_filter_single p.url
    · have hmt : (m != "") = true := bne_iff_ne.mpr hme
      by_cases hF : p.chain.filter (· != "") = []
      · have hpu : p.url = "" := by rw [ih, hF]; rfl
        have : (p.url != "") = false := by simp [hpu]
        simp only [List.filter, this, hmt, hF]
        rfl
      · have hpu : p.url ≠ "" := by
          rw [ih]
          exact pyJoin_ne_empty _ hF (fun x hx => filter_mem_ne_empty _ x hx)
        have hput : (p.url != "") = true := bne_iff_ne.mpr hpu
        simp only [List.filter, hmt, hput]
        rw [pyJoin_append_singleton _ _ hF, ← ih]
        rfl

theorem lookupLast_append (l1 l2 : List (String × Attr)) (a : String) :
    lookupLast (l1 ++ l2) a =
      match lookupLast l2 a with
      | some r => some r
      | none => lookupLast l1 a := by
  induction l1 with
  | nil =>
    simp only [List.nil_append]
    cases lookupLast l2 a <;> rfl
  | cons kv rest ih =>
    obtain ⟨k, v⟩ := kv
    show (match lookupLast (rest ++ l2) a with
          | some r => some r
          | none => if (k == a) = true then some v else none)
        = (match lookupLast l2 a with
          | some r => some r
          | none =>
            match lookupLast rest a with
            | some r => some r
            | none => if (k == a) = true then some v else none)
    rw [ih]
    cases lookupLast l2 a <;> cases lookupLast rest a <;> rfl

theorem lookupLast_methods_block (ms : List (String × Blob)) (a : String) (t : Attr)
    (h : lookupLast (ms.map (fun md => (pyLower md.1, Attr.method (pyLower md.1) md.2))) a
        = some t) :
    ∃ md, md ∈ ms ∧ pyLower md.1 = a ∧ t = .method (pyLower md.1) md.2 := by
  induction ms with
  | nil => cases h
  | cons md rest ih =>
    simp only [List.map, lookupLast] at h
    cases hr : lookupLast (rest.map (fun md => (pyLower md.1, Attr.method (pyLower md.1) md.2))) a with
    | some r =>
      rw [hr] at h
      obtain ⟨md', hmem, hk, ht⟩ := ih (by rw [hr]; exact h)
      exact ⟨md', List.mem_cons_of_mem _ hmem, hk, ht⟩
    | none =>
      rw [hr] at h
      by_cases hk : pyLower md.1 = a
      · rw [if_pos (by exact beq_iff_eq.mpr hk)] at h
        injection h with h
        exact ⟨md, List.mem_cons_self _ _, hk, h.symm⟩
      · rw [if_neg (by simpa using hk)] at h
        cases h

theorem methodsPairs_cons_methods (ms : List (String × Blob))
    (rest : List (String × SchemaVal)) :
    methodsPairs (("METHODS", SchemaVal.methodsVal ms) :: rest) = ms ++ methodsPairs rest := by
  simp [methodsPairs]

/-- Every dynamically installed attribute comes either from a `METHODS` pair
(a bound method named by the lowercased verb) or from a static child entry
(a child navigator whose fields are forced by the parent and the key). -/
theorem getattr_shape (key : String) (self : Navigator) :
    ∀ (es : List (String × SchemaVal)) (a : String) (t : Attr),
    lookupLast (attrsOfEntries key self es) a = some t →
    (∃ bl, t = .method a bl ∧ ∃ m, (m, bl) ∈ methodsPairs es ∧ pyLower m = a)
    ∨ (∃ es', t = .child (.mk es' a key (some self) none) ∧ (a, SchemaVal.nodeVal es') ∈ es) := by
  intro es
  induction es with
  | nil => intro a t h; cases h
  | cons kv rest ih =>
    intro a t h
    obtain ⟨k, v⟩ := kv
    rw [attrsOfEntries, lookupLast_append] at h
    cases hr : lookupLast (attrsOfEntries key self rest) a with
    | some r =>
      rw [hr] at h
      rcases ih a t (by rw [hr]; exact h) with ⟨bl, ht, m, hm, hml⟩ | ⟨es', ht, hmem⟩
      · refine Or.inl ⟨bl, ht, m, ?_, hml⟩
        by_cases hk : k = "METHODS"
        · subst hk
          cases v with
          | methodsVal ms => rw [methodsPairs_cons_methods]; exact List.mem_append_right _ hm
          | nodeVal es0 => simpa [methodsPairs] using hm
        · simpa [methodsPairs, hk] using hm
      · exact Or.inr ⟨es', ht, List.mem_cons_of_mem _ hmem⟩
    | none =>
      rw [hr] at h
      simp only [attrBlock] at h
      by_cases hk : k = "METHODS"
      · subst hk
        cases v with
        | methodsVal ms =>
          rw [if_pos (by rfl)] at h
          obtain ⟨md, hmem, hml, ht⟩ := lookupLast_methods_block ms a t h
          refine Or.inl ⟨md.2, by rw [ht, hml], md.1, ?_, hml⟩
          rw [methodsPairs_cons_methods]
          exact List.mem_append_left _ hmem
        | nodeVal es0 =>
          rw [if_pos (by rfl)] at h
          cases h
      · rw [if_neg (by simpa using hk)] at h
        by_cases hp : startsWithChar k '_' && endsWithChar k '_'
        · rw [if_pos hp] at h; cases h
        · rw [if_neg hp] at h
          cases v with
          | nodeVal es' =>
            simp only [lookupLast] at h
            by_cases hka : k = a
            · rw [if_pos (beq_iff_eq.mpr hka)] at h
              injection h with h
              subst hka
              exact Or.inr ⟨es', h.symm, List.mem_cons_self _ _⟩
            · rw [if_neg (by simpa using hka)] at h
              cases h
          | methodsVal ms => cases h

/-- A successful `__call__` is only ever produced by the single-keyword
branch: the result navigator's fields are forced by the caller's navigator
and the keyword/value pair. -/
theorem call_ok_shape (p : Navigator) (kw : List (String × PyVal)) (c : Navigator)
    (h : p.call kw = .ok c) :
    ∃ k v sub, kw = [(k, v)]
      ∧ (allowedArgs p.endpoints).contains k = true
      ∧ pyLookup p.endpoints ("_" ++ k ++ "_") = some (.nodeVal sub)
      ∧ checkEntries sub = .ok ()
      ∧ c = .mk sub ("_" ++ k ++ "_") p.apikey (some p) (some v) := by
  match kw with
  | [] => simp [Navigator.call] at h
  | [(k, v)] =>
    simp only [Navigator.call] at h
    cases hc : (allowedArgs p.endpoints).contains k with
    | false => rw [hc] at h; simp at h
    | true =>
      rw [hc] at h
      rw [if_pos rfl] at h
      cases hl : pyLookup p.endpoints ("_" ++ k ++ "_") with
      | none => rw [hl] at h; cases h
      | some sub =>
        rw [hl] at h
        cases sub with
        | methodsVal ms => simp [TrelloAPI.init] at h
        | nodeVal es =>
          simp only [TrelloAPI.init] at h
          cases hch : checkEntries es with
          | error e => rw [hch] at h; cases h
          | ok u =>
            rw [hch] at h
            cases u
            injection h with h
            exact ⟨k, v, es, rfl, hc, hl, hch, h.symm⟩
  | (x :: y :: rest) => simp [Navigator.call] at h

/-- If no `METHODS` pair lowercases onto `a` and `a` is not a key of the
mapping, then no dynamic attribute named `a` exists. -/
theorem getattrN_none (nav : Navigator) (a : String)
    (hm : ∀ m bl, (m, bl) ∈ methodsPairs nav.endpoints → pyLower m ≠ a)
    (hkey : ∀ v, ¬ (a, v) ∈ nav.endpoints) :
    getattrN nav a = none := by
  cases hg : getattrN nav a with
  | none => rfl
  | some t =>
    rw [getattrN] at hg
    rcases getattr_shape nav.apikey nav nav.endpoints a t hg with
      ⟨bl, ht, m, hmem, hml⟩ | ⟨es', ht, hmem⟩
    · exact absurd hml (hm m bl hmem)
    · exact absurd hmem (hkey _)

theorem decodeDocs_err (ms : List (String × Blob))
    (h : ms.any (fun md => md.2 == Blob.bad) = true) :
    ∃ e, decodeDocs ms = .error e := by
  induction ms with
  | nil => cases h
  | cons md rest ih =>
    simp only [List.any_cons, Bool.or_eq_true] at h
    cases hbad : md.2 with
    | bad => exact ⟨.decodeError, by simp [decodeDocs, unpack_doc, hbad]⟩
    | good s =>
      have hrest : rest.any (fun md => md.2 == Blob.bad) = true := by
        rcases h with h | h
        · rw [hbad] at h; cases h
        · exact h
      obtain ⟨e, he⟩ := ih hrest
      exact ⟨e, by simp [decodeDocs, unpack_doc, hbad, he]⟩

mutual

theorem checkVal_err : ∀ v, hasBadBlobVal v = true → ∃ e, checkVal v = .error e
  | .methodsVal _, _ => ⟨.typeError, by simp [checkVal]⟩
  | .nodeVal es, h => by
    obtain ⟨e, he⟩ := checkEntries_err es (by rwa [hasBadBlobVal] at h)
    exact ⟨e, by rw [checkVal]; exact he⟩

theorem checkEntries_err : ∀ es, hasBadBlobEntries es = true →
    ∃ e, checkEntries es = .error e
  | [], h => by rw [hasBadBlobEntries] at h; cases h
  | (k, v) :: rest, h => by
    rw [hasBadBlobEntries, Bool.or_eq_true] at h
    rw [checkEntries]
    cases hstep : checkStep k v with
    | error e => exact ⟨e, rfl⟩
    | ok u =>
      cases u
      rcases h with h | h
      · exfalso
        rw [checkStep.eq_def] at hstep
        rw [hasBadBlobStep.eq_def] at h
        by_cases hk : k = "METHODS"
        · rw [if_pos (beq_iff_eq.mpr hk)] at hstep
          rw [if_pos (beq_iff_eq.mpr hk)] at h
          cases v with
          | methodsVal ms =>
            have h' : ms.any (fun md => md.2 == Blob.bad) = true := h
            have hstep' : decodeDocs ms = Except.ok PUnit.unit := hstep
            obtain ⟨e, he⟩ := decodeDocs_err ms h'
            rw [he] at hstep'
            cases hstep'
          | nodeVal es0 => exact absurd h (by simp)
        · rw [if_neg (by simpa using hk)] at hstep
          rw [if_neg (by simpa using hk)] at h
          by_cases hp : startsWithChar k '_' && endsWithChar k '_'
          · rw [if_pos hp] at h; cases h
          · rw [if_neg hp] at hstep
            rw [if_neg hp] at h
            obtain ⟨e, he⟩ := checkVal_err v h
            rw [he] at hstep
            cases hstep
      · exact checkEntries_err rest h

end

theorem pyLookup_pyDictSet_same {α : Type} (l : List (String × α)) (k : String) (v : α) :
    pyLookup (pyDictSet l k v) k = some v := by
  induction l with
  | nil => simp [pyDictSet, pyLookup]
  | cons kv rest ih =>
    by_cases hk : kv.1 = k
    · simp [pyDictSet, pyLookup, hk]
    · rw [pyDictSet, if_neg (by simpa using hk), pyLookup, if_neg (by simpa using hk)]
      exact ih

theorem pyLookup_pyDictSet_other {α : Type} (l : List (String × α)) (k k' : String)
    (v : α) (h : k' ≠ k) :
    pyLookup (pyDictSet l k v) k' = pyLookup l k' := by
  induction l with
  | nil => simp [pyDictSet, pyLookup, Ne.symm h]
  | cons kv rest ih =>
    by_cases hk : kv.1 = k
    · rw [pyDictSet, if_pos (by simpa using hk), pyLookup, pyLookup,
        if_neg (by simpa using Ne.symm h), if_neg (by rw [hk]; simpa using Ne.symm h)]
    · rw [pyDictSet, if_neg (by simpa using hk), pyLookup, pyLookup]
      by_cases hk' : kv.1 = k'
      · rw [if_pos (by simpa using hk'), if_pos (by simpa using hk')]
      · rw [if_neg (by simpa using hk'), if_neg (by simpa using hk')]
        exact ih

theorem charOfNat_upper_isLower (n : Nat) (h1 : 65 ≤ n) (h2 : n ≤ 90) :
    (Char.ofNat (n + 32)).isLower = true := by
  have hv : (n + 32).isValidChar := Or.inl (by omega)
  rw [Char.ofNat, dif_pos hv]
  simp only [Char.ofNatAux, Char.isLower]
  rw [Bool.and_eq_true, decide_eq_true_eq, decide_eq_true_eq]
  constructor
  · rw [ge_iff_le, UInt32.le_def, BitVec.le_def]
    simp only [UInt32.toBitVec_ofNat, BitVec.toNat_ofNat, BitVec.toNat_ofNatLt]
    omega
  · rw [UInt32.le_def, BitVec.le_def]
    simp only [UInt32.toBitVec_ofNat, BitVec.toNat_ofNat, BitVec.toNat_ofNatLt]
    omega

theorem toLower_isLower_of_upper (c : Char) (hu : c.isUpper = true) :
    (c.toLower).isLower = true := by
  rw [Char.isUpper, Bool.and_eq_true, decide_eq_true_eq, decide_eq_true_eq] at hu
  obtain ⟨h65, h90⟩ := hu
  rw [ge_iff_le, UInt32.le_def, BitVec.le_def] at h65
  rw [UInt32.le_def, BitVec.le_def] at h90
  simp only [UInt32.toBitVec_ofNat, BitVec.toNat_ofNat] at h65 h90
  have hh : c.toNat = c.val.toBitVec.toNat := rfl
  have h65' : 65 ≤ c.toNat := by omega
  have h90' : c.toNat ≤ 90 := by omega
  show ((let n := c.toNat; if n ≥ 65 ∧ n ≤ 90 then Char.ofNat (n + 32) else c).isLower) = true
  simp only
  rw [if_pos ⟨h65', h90'⟩]
  exact charOfNat_upper_isLower c.toNat h65' h90'

theorem upper2underscore_chars : ∀ l : List Char,
    (upper2underscore l).all (fun c => c.isLower || c == '_') = true := by
  intro l
  induction l with
  | nil => rfl
  | cons ch rest ih =>
    rw [upper2underscore, List.all_append, ih, Bool.and_true]
    by_cases hl : ch.isLower
    · simp [hl]
    · by_cases ha : ch.isAlpha
      · have hu : ch.isUpper = true := by
          have h' : (ch.isUpper || ch.isLower) = true := ha
          rw [Bool.or_eq_true] at h'
          rcases h' with h' | h'
          · exact h'
          · exact absurd h' hl
        have hlow := toLower_isLower_of_upper ch hu
        rw [if_neg hl, if_pos ha]
        simp [List.all_cons, hlow]
      · simp [hl, ha]

/-- `_camelcase_to_underscore` only emits lowercase letters and
underscores. -/
theorem camel_normalized (s : String) :
    normalizedChars (camelcaseToUnderscore s) = true :=
  upper2underscore_chars s.toList

theorem upper2underscore_append : ∀ l1 l2 : List Char,
    upper2underscore (l1 ++ l2) = upper2underscore l1 ++ upper2underscore l2 := by
  intro l1 l2
  induction l1 with
  | nil => rfl
  | cons ch rest ih =>
    rw [List.cons_append, upper2underscore, upper2underscore, ih, List.append_assoc]

/-- A URL segment written in square brackets normalizes to the normalization
of its inner text wrapped in one additional leading and one additional
trailing underscore. -/
theorem camel_bracket (inner : String) :
    camelcaseToUnderscore ("[" ++ inner ++ "]")
      = "_" ++ camelcaseToUnderscore inner ++ "_" := by
  apply String.ext_iff.mpr
  show (camelcaseToUnderscore ("[" ++ inner ++ "]")).data
      = ("_" ++ camelcaseToUnderscore inner ++ "_").data
  rw [String.data_append, String.data_append]
  show upper2underscore (("[" ++ inner ++ "]").data)
      = ['_'] ++ upper2underscore inner.data ++ ['_']
  rw [show ("[" ++ inner ++ "]").data = '[' :: (inner.data ++ [']']) by
    rw [show ("[" ++ inner ++ "]") = "[" ++ (inner ++ "]") by
      rw [String.append_assoc]]
    rw [String.data_append, String.data_append]
    rfl]
  rw [show ('[' :: (inner.data ++ [']'])) = ['['] ++ (inner.data ++ [']']) from rfl,
    upper2underscore_append, upper2underscore_append]
  rfl

theorem interiorOk_append (l1 l2 : List (String × SchemaVal)) :
    interiorOkEntries (l1 ++ l2)
      = (interiorOkEntries l1 && interiorOkEntries l2) := by
  induction l1 with
  | nil => rw [List.nil_append, interiorOkEntries, Bool.true_and]
  | cons kv rest ih =>
    obtain ⟨k, v⟩ := kv
    rw [List.cons_append, interiorOkEntries, interiorOkEntries, ih, Bool.and_assoc]

theorem pyLookup_mem {α : Type} : ∀ (l : List (String × α)) (x : String) (v : α),
    pyLookup l x = some v → (x, v) ∈ l := by
  intro l
  induction l with
  | nil => intro x v h; cases h
  | cons kv rest ih =>
    intro x v h
    obtain ⟨k0, v0⟩ := kv
    rw [pyLookup] at h
    by_cases hk : k0 = x
    · rw [if_pos (by simpa using hk)] at h
      injection h with h
      have h' : v0 = v := h
      subst hk
      subst h'
      exact List.mem_cons_self _ _
    · rw [if_neg (by simpa using hk)] at h
      exact List.mem_cons_of_mem _ (ih x v h)

theorem mem_pyDictSet {α : Type} : ∀ (l : List (String × α)) (k : String) (v : α)
    (x : String × α), x ∈ pyDictSet l k v → x = (k, v) ∨ x ∈ l := by
  intro l k v
  induction l with
  | nil => intro x h; simp [pyDictSet] at h; exact Or.inl h
  | cons kv rest ih =>
    intro x h
    rw [pyDictSet] at h
    by_cases hk : kv.1 = k
    · rw [if_pos (by simpa using hk)] at h
      rcases List.mem_cons.mp h with h | h
      · exact Or.inl h
      · exact Or.inr (List.mem_cons_of_mem _ h)
    · rw [if_neg (by simpa using hk)] at h
      rcases List.mem_cons.mp h with h | h
      · exact Or.inr (h ▸ List.mem_cons_self _ _)
      · rcases ih x h with h' | h'
        · exact Or.inl h'
        · exact Or.inr (List.mem_cons_of_mem _ h')

theorem interiorOk_pyDictSet (es : List (String × SchemaVal)) (k : String)
    (v : SchemaVal) (hes : interiorOkEntries es = true)
    (hkv : interiorOkStep k v = true) :
    interiorOkEntries (pyDictSet es k v) = true := by
  induction es with
  | nil =>
    rw [pyDictSet, interiorOkEntries, interiorOkEntries, hkv]
    rfl
  | cons kv rest ih =>
    obtain ⟨k0, v0⟩ := kv
    rw [interiorOkEntries, Bool.and_eq_true] at hes
    rw [pyDictSet]
    by_cases hk : k0 = k
    · rw [if_pos (by simpa using hk), interiorOkEntries, hkv, hes.2]
      rfl
    · rw [if_neg (by simpa using hk), interiorOkEntries, hes.1, ih hes.2]
      rfl

theorem interiorOk_lookup (es : List (String × SchemaVal)) (x : String)
    (es' : List (String × SchemaVal)) (hes : interiorOkEntries es = true)
    (hl : pyLookup es x = some (.nodeVal es')) :
    interiorOkEntries es' = true := by
  induction es with
  | nil => cases hl
  | cons kv rest ih =>
    obtain ⟨k0, v0⟩ := kv
    rw [interiorOkEntries, Bool.and_eq_true] at hes
    rw [pyLookup] at hl
    by_cases hk : k0 = x
    · rw [if_pos (by simpa using hk)] at hl
      injection hl with hl
      have hl' : v0 = SchemaVal.nodeVal es' := hl
      subst hl'
      have hstep := hes.1
      rw [interiorOkStep.eq_def] at hstep
      by_cases hkM : k0 = "METHODS"
      · rw [if_pos (beq_iff_eq.mpr hkM)] at hstep
        exact absurd hstep (by simp)
      · rw [if_neg (by simpa using hkM), Bool.and_eq_true] at hstep
        have h2 : interiorOkVal (SchemaVal.nodeVal es') = true := hstep.2
        rwa [interiorOkVal] at h2
    · rw [if_neg (by simpa using hk)] at hl
      exact ih hes.2 hl

theorem attachMethod_ok (es : List (String × SchemaVal)) (m : String) (d : Blob)
    (hes : interiorOkEntries es = true) :
    interiorOkEntries (attachMethod es m d) = true := by
  rw [attachMethod]
  cases hl : pyLookup es "METHODS" with
  | none =>
    exact interiorOk_pyDictSet es _ _ hes (by rw [interiorOkStep.eq_def]; rfl)
  | some sub =>
    cases sub with
    | methodsVal ms =>
      exact interiorOk_pyDictSet es _ _ hes (by rw [interiorOkStep.eq_def]; rfl)
    | nodeVal es0 => exact hes

theorem descendTree_ok (m : String) (d : Blob) : ∀ (parts : List String)
    (es : List (String × SchemaVal)), interiorOkEntries es = true →
    interiorOkEntries (descendTree es parts m d) = true := by
  intro parts
  induction parts with
  | nil => intro es hes; exact attachMethod_ok es m d hes
  | cons p rest ih =>
    intro es hes
    rw [descendTree]
    apply interiorOk_pyDictSet es _ _ hes
    rw [interiorOkStep.eq_def]
    have hnorm : normalizedChars (camelcaseToUnderscore p) = true := camel_normalized p
    have hne : ¬ camelcaseToUnderscore p = "METHODS" := by
      intro hx
      rw [hx] at hnorm
      cases hnorm
    rw [if_neg (by simpa using hne), hnorm, Bool.true_and, interiorOkVal]
    cases hl : pyLookup es (camelcaseToUnderscore p) with
    | none => exact ih [] (by rw [interiorOkEntries])
    | some sub =>
      cases sub with
      | methodsVal ms => exact ih [] (by rw [interiorOkEntries])
      | nodeVal es' => exact ih es' (interiorOk_lookup es _ es' hes hl)

/-- The root-level invariant of the builder: every version maps to a
conforming interior mapping. -/
def rootOk (t : List (String × SchemaVal)) : Prop :=
  ∀ kv ∈ t, ∃ es, kv.2 = SchemaVal.nodeVal es ∧ interiorOkEntries es = true

theorem insertEndpoint_ok (t : List (String × SchemaVal)) (m u : String) (d : Blob)
    (ht : rootOk t) : rootOk (insertEndpoint t m u d) := by
  rw [insertEndpoint]
  cases pySplitPath u with
  | nil => exact ht
  | cons version rest =>
    intro kv hkv
    have hsubok : interiorOkEntries
        (match pyLookup t version with
          | some (.nodeVal es') => es'
          | some (.methodsVal _) => []
          | none => []) = true := by
      cases hl : pyLookup t version with
      | none =>
        show interiorOkEntries [] = true
        rw [interiorOkEntries]
      | some sv =>
        cases sv with
        | methodsVal ms =>
          show interiorOkEntries [] = true
          rw [interiorOkEntries]
        | nodeVal es' =>
          show interiorOkEntries es' = true
          obtain ⟨es0, he0, hok⟩ := ht _ (pyLookup_mem t version _ hl)
          have he0' : SchemaVal.nodeVal es' = SchemaVal.nodeVal es0 := he0
          injection he0' with he0'
          rw [he0']
          exact hok
    rcases mem_pyDictSet t version _ kv hkv with h | h
    · exact ⟨_, by rw [h], descendTree_ok m d rest _ hsubok⟩
    · exact ht kv h

/-- Every root value `create_tree` produces is a conforming interior
mapping. -/
theorem create_tree_ok (eps : List (String × String × Blob)) :
    rootOk (create_tree eps) := by
  rw [create_tree]
  have : ∀ (l : List (String × String × Blob)) (t : List (String × SchemaVal)),
      rootOk t → rootOk (l.foldl (fun t e => insertEndpoint t e.1 e.2.1 e.2.2) t) := by
    intro l
    induction l with
    | nil => intro t ht; exact ht
    | cons e rest ih =>
      intro t ht
      exact ih _ (insertEndpoint_ok t e.1 e.2.1 e.2.2 ht)
  exact this eps [] (by intro kv h; cases h)

/-- A successful static descent `nav.a` yields exactly the child navigator
`__init__` built for key `a`: subtree from the mapping, segment `a`, parent
`nav`, parent's credentials, no captured argument. -/
theorem descend_shape (p : Navigator) (a : String) (c : Navigator)
    (h : p.descend a = some c) :
    ∃ es', c = .mk es' a p.apikey (some p) none
      ∧ (a, SchemaVal.nodeVal es') ∈ p.endpoints := by
  rw [Navigator.descend] at h
  cases hg : getattrN p a with
  | none => rw [hg] at h; cases h
  | some t =>
    rw [hg] at h
    cases t with
    | method mn bl => cases h
    | child c0 =>
      injection h with h
      rw [getattrN] at hg
      rcases getattr_shape p.apikey p p.endpoints a _ hg with
        ⟨bl, ht, _⟩ | ⟨es', ht, hmem⟩
      · cases ht
      · injection ht with ht
        exact ⟨es', by rw [← h, ht], hmem⟩

/-- An attribute that resolves to a bound HTTP method carries the attribute's
own name as its stored verb, and stems from a `METHODS` pair whose verb
lowercases to that name. -/
theorem getattr_method_shape (nav : Navigator) (a mn : String) (bl : Blob)
    (h : getattrN nav a = some (.method mn bl)) :
    mn = a ∧ ∃ m, (m, bl) ∈ methodsPairs nav.endpoints ∧ pyLower m = a := by
  rw [getattrN] at h
  rcases getattr_shape nav.apikey nav nav.endpoints a _ h with
    ⟨bl', ht, m, hm, hml⟩ | ⟨es', ht, _⟩
  · injection ht with h1 h2
    exact ⟨h1, m, h2 ▸ hm, hml⟩
  · cases ht

/-- C1: for every Navigator, `_url` returns the `/`-separated join, in
root-to-leaf order, of exactly the nonempty segments (`mypart` values) on the
chain from the root to the navigator; in particular a root whose segment is
the empty string contributes nothing, so the path has no leading `/`.  The
embedding is a pure function of the navigator, so repeated evaluation returns
the identical string and has no side effects. -/
theorem C1_url_resolution (nav : Navigator) :
    nav.url = pyJoin "/" (nav.chain.filter (· != "")) :=
  Navigator.url_eq_chain nav

/-- C2 counterexample: with parameter value `""` — a falsy Python value whose
`str()` is `""` — the descent succeeds, but because `_url` tests
`if self._api_arg:` the new navigator's URL segment is the delimited schema
key `_board_id_`, not `str(v)`; the claimed equation
`nav(k=v)._url == nav._url + "/" + str(v)` is false at this input. -/
theorem C2_counterexample :
    ((Navigator.mk [("_board_id_", SchemaVal.nodeVal [])] "1" "K" none none).call
        [("board_id", PyVal.ofString "")]).map Navigator.url = Except.ok "1/_board_id_"
    ∧ (Navigator.mk [("_board_id_", SchemaVal.nodeVal [])] "1" "K" none none).url = "1"
    ∧ "1/_board_id_" ≠ "1" ++ "/" ++ (PyVal.ofString "").toStr := by
  refine ⟨?_, rfl, by decide⟩
  simp [Navigator.call, allowedArgs, pyStripChar, startsWithChar, endsWithChar, pyLookup,
    TrelloAPI.init, checkEntries, Navigator.endpoints, Navigator.apikey, Navigator.url,
    mypartOf, PyVal.ofString, pyJoin, Except.map, List.filter]

/-- C2 (amended): for a node whose mapping contains the literal parameter key
`_k_` with a valid sub-mapping, `nav(k=v)` returns a new navigator bound to
that subtree with parent `nav`, the same credentials, and stored argument
`v`; its URL appends `str(v)` as a segment **provided `v` is truthy** (for a
falsy `v` the code falls back to the delimited key `_k_`), and equals
`nav._url + "/" + str(v)` when moreover `str(v)` and `nav._url` are
nonempty. -/
theorem C2_param_descent_amended (nav : Navigator) (k : String) (v : PyVal)
    (sub : List (String × SchemaVal))
    (hk : (allowedArgs nav.endpoints).contains k = true)
    (hl : pyLookup nav.endpoints ("_" ++ k ++ "_") = some (.nodeVal sub))
    (hsub : checkEntries sub = .ok ())
    (ht : v.truthy = true) :
    nav.call [(k, v)] = .ok (.mk sub ("_" ++ k ++ "_") nav.apikey (some nav) (some v))
    ∧ (Navigator.mk sub ("_" ++ k ++ "_") nav.apikey (some nav) (some v)).url
        = pyJoin "/" ([nav.url, v.toStr].filter (· != ""))
    ∧ (nav.url ≠ "" → v.toStr ≠ "" →
        (Navigator.mk sub ("_" ++ k ++ "_") nav.apikey (some nav) (some v)).url
          = nav.url ++ "/" ++ v.toStr) := by
  have hu : (Navigator.mk sub ("_" ++ k ++ "_") nav.apikey (some nav) (some v)).url
      = pyJoin "/" ([nav.url, v.toStr].filter (· != "")) := by
    show pyJoin "/" ([nav.url, mypartOf ("_" ++ k ++ "_") (some v)].filter (· != "")) = _
    rw [mypartOf, if_pos ht]
  refine ⟨?_, hu, ?_⟩
  · simp only [Navigator.call, hk, if_true, hl, TrelloAPI.init, hsub]
  · intro h1 h2
    rw [hu]
    have hb1 : (nav.url != "") = true := bne_iff_ne.mpr h1
    have hb2 : (v.toStr != "") = true := bne_iff_ne.mpr h2
    simp only [List.filter, hb1, hb2]
    rfl

/-- C2 witness: the amended theorem applied at a concrete schema and the
truthy value `"B1"`. -/
theorem C2_param_descent_witness :
    (allowedArgs [("_board_id_", SchemaVal.nodeVal [])]).contains "board_id" = true
    ∧ (PyVal.ofString "B1").truthy = true
    ∧ (Navigator.mk [("_board_id_", SchemaVal.nodeVal [])] "1" "K" none none).call
        [("board_id", PyVal.ofString "B1")]
        = .ok (.mk [] "_board_id_" "K"
            (some (.mk [("_board_id_", SchemaVal.nodeVal [])] "1" "K" none none))
            (some (PyVal.ofString "B1")))
    ∧ (Navigator.mk [] "_board_id_" "K"
        (some (.mk [("_board_id_", SchemaVal.nodeVal [])] "1" "K" none none))
        (some (PyVal.ofString "B1"))).url = "1" ++ "/" ++ "B1" := by
  have h := C2_param_descent_amended
    (Navigator.mk [("_board_id_", SchemaVal.nodeVal [])] "1" "K" none none)
    "board_id" (PyVal.ofString "B1") []
    (by simp [allowedArgs, pyStripChar, startsWithChar, endsWithChar, Navigator.endpoints])
    (by simp [pyLookup, Navigator.endpoints])
    (by simp [checkEntries])
    (by decide)
  exact ⟨by simp [allowedArgs, pyStripChar, startsWithChar, endsWithChar], by decide,
    h.1, h.2.2 (by decide) (by decide)⟩

/-- C3: parameter descent validates its arguments: zero keyword arguments
fail with the `ValueError` whose message enumerates every legal keyword
(`MissingArgument`); more than one keyword argument fails with the
"Too many arguments" `ValueError` (`TooManyArguments`); a single keyword not
among the legal argument names fails with the "Unknown argument" `ValueError`
(`UnknownArgument`).  Each failure is an `Except.error`, so no navigator is
returned. -/
theorem C3_argument_validation (nav : Navigator) (k : String) (v : PyVal)
    (kw : List (String × PyVal)) :
    nav.call [] = .error (.valueErrorMissing
      ("A keyword argument must be provided: " ++ pyJoin ", " (allowedArgs nav.endpoints)))
    ∧ (2 ≤ kw.length → nav.call kw = .error .valueErrorTooMany)
    ∧ ((allowedArgs nav.endpoints).contains k = false →
        nav.call [(k, v)] = .error (.valueErrorUnknown [k])) := by
  refine ⟨rfl, ?_, ?_⟩
  · intro h
    match kw with
    | [] => exact absurd h (by simp)
    | [x] => exact absurd h (by simp)
    | x :: y :: rest => rfl
  · intro h
    have hn : ¬ ((allowedArgs nav.endpoints).contains k = true) := by
      rw [h]; exact Bool.false_ne_true
    simp only [Navigator.call, if_neg hn]

/-- C3 witness: the validation theorem applied at a concrete node with one
declared parameter keyword. -/
theorem C3_argument_validation_witness :
    2 ≤ ([(("a" : String), PyVal.ofString "1"), ("b", PyVal.ofString "2")]).length
    ∧ (allowedArgs [("_board_id_", SchemaVal.nodeVal [])]).contains "bogus" = false
    ∧ (Navigator.mk [("_board_id_", SchemaVal.nodeVal [])] "1" "K" none none).call []
        = .error (.valueErrorMissing "A keyword argument must be provided: board_id")
    ∧ (Navigator.mk [("_board_id_", SchemaVal.nodeVal [])] "1" "K" none none).call
        [("a", PyVal.ofString "1"), ("b", PyVal.ofString "2")] = .error .valueErrorTooMany
    ∧ (Navigator.mk [("_board_id_", SchemaVal.nodeVal [])] "1" "K" none none).call
        [("bogus", PyVal.ofString "1")] = .error (.valueErrorUnknown ["bogus"]) := by
  have h := C3_argument_validation
    (Navigator.mk [("_board_id_", SchemaVal.nodeVal [])] "1" "K" none none)
    "bogus" (PyVal.ofString "1")
    [("a", PyVal.ofString "1"), ("b", PyVal.ofString "2")]
  exact ⟨by decide, by decide, h.1, h.2.1 (by decide), h.2.2 (by decide)⟩

/-- C4 counterexample: a node that declares `GET` in its `METHODS` but also
has a static child named `get` — the child is installed by `setattr` after
the bound method and shadows it, so dispatching the declared verb resolves to
the child navigator and performs no transport request. -/
theorem C4_counterexample :
    "GET" ∈ (methodsOf [("METHODS", SchemaVal.methodsVal [("GET", Blob.good "d")]),
      ("get", SchemaVal.nodeVal [])]).map Prod.fst
    ∧ Dispatch.isRequest
        ((Navigator.mk [("METHODS", SchemaVal.methodsVal [("GET", Blob.good "d")]),
          ("get", SchemaVal.nodeVal [])] "1" "K" none none).dispatch "get" none) = false := by
  exact ⟨by simp [methodsOf, pyLookup], rfl⟩

/-- C4 (amended): whenever the attribute named by the lowercased verb
actually resolves to the generated HTTP method (i.e. it is not shadowed by a
static child installed later under the same name), dispatching it performs
exactly one transport request whose method is that lowercased verb, whose URL
is the base URL concatenated with the navigator's resolved path, and whose
params mapping is the caller's params (a fresh empty mapping when absent)
with `key` set to the navigator's API key; the transport's response is
returned unmodified. -/
theorem C4_method_dispatch_amended {α : Type} (transport : Request → α)
    (nav : Navigator) (a mn : String) (bl : Blob)
    (ps? : Option (List (String × PyVal)))
    (h : getattrN nav a = some (.method mn bl)) :
    mn = a
    ∧ (∃ m, (m, bl) ∈ methodsPairs nav.endpoints ∧ pyLower m = a)
    ∧ nav.dispatch a ps? = .request
        (Request.mk mn (TRELLO_URL ++ nav.url)
          (pyDictSet (ps?.getD []) "key" (PyVal.ofString nav.apikey)))
        (ps?.map (fun ps => pyDictSet ps "key" (PyVal.ofString nav.apikey)))
    ∧ nav.dispatchWith transport a ps?
        = some (transport (Request.mk mn (TRELLO_URL ++ nav.url)
            (pyDictSet (ps?.getD []) "key" (PyVal.ofString nav.apikey)))) := by
  obtain ⟨hmn, hm⟩ := getattr_method_shape nav a mn bl h
  refine ⟨hmn, hm, ?_, ?_⟩
  · cases ps? with
    | none => simp only [Navigator.dispatch, h, apiCall, Option.map]
    | some ps =>
      simp only [Navigator.dispatch, h, apiCall, Option.map, Option.getD]
  · simp only [Navigator.dispatchWith, h, apiCall]

/-- C4 witness: the amended theorem applied at a concrete node declaring
`GET`, with an identity transport and a caller-supplied params mapping. -/
theorem C4_method_dispatch_witness :
    getattrN (Navigator.mk [("METHODS", SchemaVal.methodsVal [("GET", Blob.good "d")])]
        "1" "K" none none) "get" = some (.method "get" (Blob.good "d"))
    ∧ (Navigator.mk [("METHODS", SchemaVal.methodsVal [("GET", Blob.good "d")])]
        "1" "K" none none).dispatch "get" (some [("a", PyVal.ofString "x")])
      = .request
          (Request.mk "get" "https://trello.com/1"
            [("a", PyVal.ofString "x"), ("key", PyVal.ofString "K")])
          (some [("a", PyVal.ofString "x"), ("key", PyVal.ofString "K")])
    ∧ (Navigator.mk [("METHODS", SchemaVal.methodsVal [("GET", Blob.good "d")])]
        "1" "K" none none).dispatchWith (fun r => r) "get" (some [("a", PyVal.ofString "x")])
      = some (Request.mk "get" "https://trello.com/1"
          [("a", PyVal.ofString "x"), ("key", PyVal.ofString "K")]) := by
  have h := C4_method_dispatch_amended (fun r => r)
    (Navigator.mk [("METHODS", SchemaVal.methodsVal [("GET", Blob.good "d")])]
      "1" "K" none none)
    "get" "get" (Blob.good "d") (some [("a", PyVal.ofString "x")]) rfl
  exact ⟨rfl, h.2.2.1, h.2.2.2⟩

/-- C5 counterexample: construction is not lazy — building a navigator over a
schema whose only documentation blob is undecodable fails with the decode
error, even though no documentation was ever queried.  This refutes
"construction performs no decoding and succeeds even when a blob is not
decodable". -/
theorem C5_counterexample :
    TrelloAPI.init (.nodeVal [("METHODS", SchemaVal.methodsVal [("GET", Blob.bad)])])
      "1" "K" none none = .error .decodeError := by
  simp [TrelloAPI.init, checkEntries, checkStep, decodeDocs, unpack_doc]

/-- C5 (amended): documentation blobs are decoded eagerly at construction
time: `__init__` decodes every `METHODS` doc blob reachable through static
children of the schema (parameter subtrees are deferred until a parameter
descent constructs them), so construction fails whenever such a blob is
undecodable. -/
theorem C5_eager_decoding_amended (es : List (String × SchemaVal))
    (name apikey : String) (parent : Option Navigator) (api_arg : Option PyVal)
    (h : hasBadBlobEntries es = true) :
    ∃ e, TrelloAPI.init (.nodeVal es) name apikey parent api_arg = .error e := by
  obtain ⟨e, he⟩ := checkEntries_err es h
  exact ⟨e, by simp [TrelloAPI.init, he]⟩

/-- C5 witness: the amended theorem applied at a schema with one undecodable
blob nested below a static child. -/
theorem C5_eager_decoding_witness :
    hasBadBlobEntries [("boards", SchemaVal.nodeVal
        [("METHODS", SchemaVal.methodsVal [("GET", Blob.bad)])])] = true
    ∧ ∃ e, TrelloAPI.init (.nodeVal [("boards", SchemaVal.nodeVal
        [("METHODS", SchemaVal.methodsVal [("GET", Blob.bad)])])])
        "1" "K" none none = .error e := by
  constructor
  · simp [hasBadBlobEntries, hasBadBlobStep, hasBadBlobVal, startsWithChar, endsWithChar]
  · exact C5_eager_decoding_amended _ "1" "K" none none
      (by simp [hasBadBlobEntries, hasBadBlobStep, hasBadBlobVal, startsWithChar, endsWithChar])

/-- C6 counterexample: with the version string `""` present in the schema
mapping, the generated root factory succeeds and a chain of declared static
descents `a.b.c` resolves to the path `"a/b/c"` — the empty root segment is
elided, so the path is not `"" ++ "/" ++ "a/b/c" = "/a/b/c"` as the claim's
`"v/a/b/c"` formula demands. -/
theorem C6_counterexample :
    (generate_api [("", SchemaVal.nodeVal [("a", SchemaVal.nodeVal
        [("b", SchemaVal.nodeVal [("c", SchemaVal.nodeVal [])])])])] "" "K").map
      (fun root => (chainDescend root ["a", "b", "c"]).map Navigator.url)
      = .ok (some "a/b/c")
    ∧ "a/b/c" ≠ pyJoin "/" ["", "a", "b", "c"] := by
  constructor
  · have hch : checkEntries [("a", SchemaVal.nodeVal
        [("b", SchemaVal.nodeVal [("c", SchemaVal.nodeVal [])])])] = .ok () := by
      simp [checkEntries, checkStep, checkVal, startsWithChar, endsWithChar]
    have hroot : generate_api [("", SchemaVal.nodeVal [("a", SchemaVal.nodeVal
        [("b", SchemaVal.nodeVal [("c", SchemaVal.nodeVal [])])])])] "" "K"
        = .ok (.mk [("a", SchemaVal.nodeVal
          [("b", SchemaVal.nodeVal [("c", SchemaVal.nodeVal [])])])] "" "K" none none) := by
      have h0 : TrelloAPI.init (SchemaVal.nodeVal [("a", SchemaVal.nodeVal
          [("b", SchemaVal.nodeVal [("c", SchemaVal.nodeVal [])])])]) "" "K" none none
          = .ok (.mk [("a", SchemaVal.nodeVal
            [("b", SchemaVal.nodeVal [("c", SchemaVal.nodeVal [])])])] "" "K" none none) := by
        simp only [TrelloAPI.init, hch]
      exact h0
    rw [hroot]
    rfl
  · decide

/-- C6 (amended): for every version present in the schema mapping and every
API key, the generated root factory returns a navigator bound to
`schema[version]` with the version string as segment and no parent; a chain
of static descents `a.b.c`, each resolving at its predecessor, yields the
path that joins the nonempty strings among `version, a, b, c` with `/` —
which is `"v/a/b/c"` exactly when all four are nonempty. -/
theorem C6_root_and_chain_amended (E : List (String × SchemaVal))
    (version key a b c : String) (sv : SchemaVal) (root n1 n2 n3 : Navigator)
    (hE : pyLookup E version = some sv)
    (hroot : generate_api E version key = .ok root)
    (h1 : root.descend a = some n1) (h2 : n1.descend b = some n2)
    (h3 : n2.descend c = some n3) :
    root.name = version ∧ root.parent = none ∧ root.api_arg = none
    ∧ root.apikey = key
    ∧ (∃ es, sv = .nodeVal es ∧ root.endpoints = es)
    ∧ n3.url = pyJoin "/" (([version, a, b, c]).filter (· != "")) := by
  rw [generate_api, hE] at hroot
  cases sv with
  | methodsVal ms => simp [TrelloAPI.init] at hroot
  | nodeVal es =>
    simp only [TrelloAPI.init] at hroot
    cases hch : checkEntries es with
    | error e => rw [hch] at hroot; cases hroot
    | ok u =>
      rw [hch] at hroot
      cases u
      injection hroot with hroot
      subst hroot
      obtain ⟨es1, hn1, _⟩ := descend_shape _ a n1 h1
      subst hn1
      obtain ⟨es2, hn2, _⟩ := descend_shape _ b n2 h2
      subst hn2
      obtain ⟨es3, hn3, _⟩ := descend_shape _ c n3 h3
      subst hn3
      refine ⟨rfl, rfl, rfl, rfl, ⟨es, rfl, rfl⟩, ?_⟩
      rw [Navigator.url_eq_chain]
      have hc : (Navigator.mk es3 c
          (Navigator.mk es2 b (Navigator.mk es1 a
            (Navigator.mk es version key none none).apikey
            (some (Navigator.mk es version key none none)) none).apikey
            (some (Navigator.mk es1 a
              (Navigator.mk es version key none none).apikey
              (some (Navigator.mk es version key none none)) none)) none).apikey
          (some (Navigator.mk es2 b (Navigator.mk es1 a
            (Navigator.mk es version key none none).apikey
            (some (Navigator.mk es version key none none)) none).apikey
            (some (Navigator.mk es1 a
              (Navigator.mk es version key none none).apikey
              (some (Navigator.mk es version key none none)) none)) none)) none).chain
          = [version, a, b, c] := by
        simp [Navigator.chain, mypartOf]
      rw [hc]

/-- C6 witness: the amended theorem applied at a concrete mapping with
version `"1"` and the declared chain `x.y.z`, yielding `"1/x/y/z"`. -/
theorem C6_root_and_chain_witness :
    pyLookup [("1", SchemaVal.nodeVal [("x", SchemaVal.nodeVal
        [("y", SchemaVal.nodeVal [("z", SchemaVal.nodeVal [])])])])] "1"
      = some (SchemaVal.nodeVal [("x", SchemaVal.nodeVal
        [("y", SchemaVal.nodeVal [("z", SchemaVal.nodeVal [])])])])
    ∧ (∃ root n1 n2 n3 : Navigator,
        generate_api [("1", SchemaVal.nodeVal [("x", SchemaVal.nodeVal
          [("y", SchemaVal.nodeVal [("z", SchemaVal.nodeVal [])])])])] "1" "K" = .ok root
        ∧ root.descend "x" = some n1 ∧ n1.descend "y" = some n2
        ∧ n2.descend "z" = some n3
        ∧ root.name = "1" ∧ root.parent = none ∧ root.apikey = "K"
        ∧ n3.url = "1/x/y/z") := by
  constructor
  · rfl
  · have hch : checkEntries [("x", SchemaVal.nodeVal
        [("y", SchemaVal.nodeVal [("z", SchemaVal.nodeVal [])])])] = .ok () := by
      simp [checkEntries, checkStep, checkVal, startsWithChar, endsWithChar]
    have hroot : generate_api [("1", SchemaVal.nodeVal [("x", SchemaVal.nodeVal
        [("y", SchemaVal.nodeVal [("z", SchemaVal.nodeVal [])])])])] "1" "K"
        = .ok (.mk [("x", SchemaVal.nodeVal
          [("y", SchemaVal.nodeVal [("z", SchemaVal.nodeVal [])])])] "1" "K" none none) := by
      have h0 : TrelloAPI.init (SchemaVal.nodeVal [("x", SchemaVal.nodeVal
          [("y", SchemaVal.nodeVal [("z", SchemaVal.nodeVal [])])])]) "1" "K" none none
          = .ok (.mk [("x", SchemaVal.nodeVal
            [("y", SchemaVal.nodeVal [("z", SchemaVal.nodeVal [])])])] "1" "K" none none) := by
        simp only [TrelloAPI.init, hch]
      exact h0
    have h6 := C6_root_and_chain_amended
      [("1", SchemaVal.nodeVal [("x", SchemaVal.nodeVal
        [("y", SchemaVal.nodeVal [("z", SchemaVal.nodeVal [])])])])] "1" "K" "x" "y" "z"
      (SchemaVal.nodeVal [("x", SchemaVal.nodeVal
        [("y", SchemaVal.nodeVal [("z", SchemaVal.nodeVal [])])])])
      (.mk [("x", SchemaVal.nodeVal
        [("y", SchemaVal.nodeVal [("z", SchemaVal.nodeVal [])])])] "1" "K" none none)
      _ _ _ rfl hroot rfl rfl rfl
    exact ⟨_, _, _, _, hroot, rfl, rfl, rfl, h6.1, h6.2.1, h6.2.2.2.1, h6.2.2.2.2.2⟩

/-- C7: descent operations never mutate the parent: the embedding of
`__call__` and of attribute access translates code that assigns no field of
the parent, so both descents are pure functions of `(parent, input)`.  Two
static descents from the same navigator yield navigators that both point
back to `p` as parent, carry `p`'s credentials, differ from each other, and
whose URLs extend `p`'s own (unchanged) URL; a parameter descent from the
same `p` likewise yields an independent navigator with parent `p`. -/
theorem C7_descent_isolation (p ca cb cp : Navigator) (a b k : String) (v : PyVal)
    (h1 : p.descend a = some ca) (h2 : p.descend b = some cb) (hab : a ≠ b)
    (h3 : p.call [(k, v)] = .ok cp) :
    ca.parent = some p ∧ cb.parent = some p ∧ cp.parent = some p
    ∧ ca.apikey = p.apikey ∧ cb.apikey = p.apikey ∧ cp.apikey = p.apikey
    ∧ ca.name = a ∧ cb.name = b ∧ ca.api_arg = none ∧ cb.api_arg = none
    ∧ cp.api_arg = some v
    ∧ ca ≠ cb
    ∧ ca.url = pyJoin "/" ([p.url, a].filter (· != ""))
    ∧ cb.url = pyJoin "/" ([p.url, b].filter (· != "")) := by
  obtain ⟨es1, hca, _⟩ := descend_shape p a ca h1
  obtain ⟨es2, hcb, _⟩ := descend_shape p b cb h2
  obtain ⟨k0, v0, sub, hkw, _, _, _, hcp⟩ := call_ok_shape p _ cp h3
  injection hkw with hkw1 _
  injection hkw1 with hkwk hkwv
  subst hca
  subst hcb
  subst hcp
  subst hkwk
  subst hkwv
  refine ⟨rfl, rfl, rfl, rfl, rfl, rfl, rfl, rfl, rfl, rfl, rfl, ?_, rfl, rfl⟩
  intro heq
  have := congrArg Navigator.name heq
  simp only [Navigator.name] at this
  exact hab this

/-- C7 witness: the isolation theorem applied at a node with two static
children and one parameter keyword. -/
theorem C7_descent_isolation_witness :
    (Navigator.mk [("cards", SchemaVal.nodeVal []), ("members", SchemaVal.nodeVal []),
        ("_f_", SchemaVal.nodeVal [])] "p" "K" none none).descend "cards"
      = some (.mk [] "cards" "K" (some (.mk [("cards", SchemaVal.nodeVal []),
          ("members", SchemaVal.nodeVal []), ("_f_", SchemaVal.nodeVal [])]
          "p" "K" none none)) none)
    ∧ ("cards" : String) ≠ "members"
    ∧ (∃ ca cb cp : Navigator,
        (Navigator.mk [("cards", SchemaVal.nodeVal []), ("members", SchemaVal.nodeVal []),
          ("_f_", SchemaVal.nodeVal [])] "p" "K" none none).descend "cards" = some ca
        ∧ (Navigator.mk [("cards", SchemaVal.nodeVal []), ("members", SchemaVal.nodeVal []),
          ("_f_", SchemaVal.nodeVal [])] "p" "K" none none).descend "members" = some cb
        ∧ (Navigator.mk [("cards", SchemaVal.nodeVal []), ("members", SchemaVal.nodeVal []),
          ("_f_", SchemaVal.nodeVal [])] "p" "K" none none).call
            [("f", PyVal.ofString "V")] = .ok cp
        ∧ ca.parent = some (Navigator.mk [("cards", SchemaVal.nodeVal []),
            ("members", SchemaVal.nodeVal []), ("_f_", SchemaVal.nodeVal [])]
            "p" "K" none none)
        ∧ cb.parent = ca.parent ∧ cp.parent = ca.parent
        ∧ ca ≠ cb ∧ ca.url = "p/cards" ∧ cb.url = "p/members") := by
  have hcall : (Navigator.mk [("cards", SchemaVal.nodeVal []),
      ("members", SchemaVal.nodeVal []), ("_f_", SchemaVal.nodeVal [])]
      "p" "K" none none).call [("f", PyVal.ofString "V")]
      = .ok (.mk [] "_f_" "K" (some (.mk [("cards", SchemaVal.nodeVal []),
        ("members", SchemaVal.nodeVal []), ("_f_", SchemaVal.nodeVal [])]
        "p" "K" none none)) (some (PyVal.ofString "V"))) := by
    simp [Navigator.call, allowedArgs, pyStripChar, startsWithChar, endsWithChar,
      pyLookup, TrelloAPI.init, checkEntries, Navigator.endpoints, Navigator.apikey]
  have h := C7_descent_isolation
    (Navigator.mk [("cards", SchemaVal.nodeVal []), ("members", SchemaVal.nodeVal []),
      ("_f_", SchemaVal.nodeVal [])] "p" "K" none none)
    (.mk [] "cards" "K" (some (.mk [("cards", SchemaVal.nodeVal []),
      ("members", SchemaVal.nodeVal []), ("_f_", SchemaVal.nodeVal [])]
      "p" "K" none none)) none)
    (.mk [] "members" "K" (some (.mk [("cards", SchemaVal.nodeVal []),
      ("members", SchemaVal.nodeVal []), ("_f_", SchemaVal.nodeVal [])]
      "p" "K" none none)) none)
    (.mk [] "_f_" "K" (some (.mk [("cards", SchemaVal.nodeVal []),
      ("members", SchemaVal.nodeVal []), ("_f_", SchemaVal.nodeVal [])]
      "p" "K" none none)) (some (PyVal.ofString "V")))
    "cards" "members" "f" (PyVal.ofString "V") rfl rfl (by decide) hcall
  exact ⟨rfl, by decide,
    (.mk [] "cards" "K" (some (.mk [("cards", SchemaVal.nodeVal []),
      ("members", SchemaVal.nodeVal []), ("_f_", SchemaVal.nodeVal [])]
      "p" "K" none none)) none),
    (.mk [] "members" "K" (some (.mk [("cards", SchemaVal.nodeVal []),
      ("members", SchemaVal.nodeVal []), ("_f_", SchemaVal.nodeVal [])]
      "p" "K" none none)) none),
    (.mk [] "_f_" "K" (some (.mk [("cards", SchemaVal.nodeVal []),
      ("members", SchemaVal.nodeVal []), ("_f_", SchemaVal.nodeVal [])]
      "p" "K" none none)) (some (PyVal.ofString "V"))),
    rfl, rfl, hcall, rfl, rfl, rfl,
    h.2.2.2.2.2.2.2.2.2.2.2.1, rfl, rfl⟩

/-- C8 counterexample: a node with a static child named `get` and no `GET`
method — dispatching the undeclared verb does not fail at all: the attribute
resolves to the child navigator (no `AttributeError`, the code's
`UnsupportedMethod` analogue), though no transport request is made either. -/
theorem C8_counterexample :
    methodsOf [("get", SchemaVal.nodeVal [])] = []
    ∧ Dispatch.isAttrError ((Navigator.mk [("get", SchemaVal.nodeVal [])]
        "1" "K" none none).dispatch "get" none) = false
    ∧ Dispatch.isRequest ((Navigator.mk [("get", SchemaVal.nodeVal [])]
        "1" "K" none none).dispatch "get" none) = false := by
  exact ⟨rfl, rfl, rfl⟩

/-- C8 (amended): dispatching a name to which no `METHODS` pair lowercases
never performs a transport request; when additionally no static child of the
node carries that name, the dispatch fails with `AttributeError` (the code's
realization of `UnsupportedMethod`).  When a static child does carry the
name, the access resolves to that child navigator instead of failing. -/
theorem C8_undeclared_dispatch_amended (nav : Navigator) (a : String)
    (ps? : Option (List (String × PyVal)))
    (hm : ∀ m bl, (m, bl) ∈ methodsPairs nav.endpoints → pyLower m ≠ a) :
    Dispatch.isRequest (nav.dispatch a ps?) = false
    ∧ ((∀ v, ¬ (a, v) ∈ nav.endpoints) → nav.dispatch a ps? = .attributeError) := by
  constructor
  · cases hg : getattrN nav a with
    | none => simp [Navigator.dispatch, hg, Dispatch.isRequest]
    | some t =>
      cases t with
      | child c => simp [Navigator.dispatch, hg, Dispatch.isRequest]
      | method mn bl =>
        exfalso
        obtain ⟨hmn, m, hmem, hml⟩ := getattr_method_shape nav a mn bl hg
        exact hm m bl hmem hml
  · intro hkey
    have hg := getattrN_none nav a hm hkey
    simp [Navigator.dispatch, hg]

/-- C8 witness: the amended theorem applied at a node that declares only
`GET`, dispatching the undeclared `post`. -/
theorem C8_undeclared_dispatch_witness :
    methodsPairs [("METHODS", SchemaVal.methodsVal [("GET", Blob.good "d")])]
      = [("GET", Blob.good "d")]
    ∧ Dispatch.isRequest ((Navigator.mk
        [("METHODS", SchemaVal.methodsVal [("GET", Blob.good "d")])]
        "1" "K" none none).dispatch "post" none) = false
    ∧ (Navigator.mk [("METHODS", SchemaVal.methodsVal [("GET", Blob.good "d")])]
        "1" "K" none none).dispatch "post" none = .attributeError := by
  have hm : ∀ m bl, (m, bl) ∈ methodsPairs
      (Navigator.mk [("METHODS", SchemaVal.methodsVal [("GET", Blob.good "d")])]
        "1" "K" none none).endpoints → pyLower m ≠ "post" := by
    intro m bl hmem
    have hmem' : (m, bl) ∈ [(("GET" : String), Blob.good "d")] := hmem
    rw [List.mem_singleton] at hmem'
    injection hmem' with h1 h2
    subst h1
    decide
  have h := C8_undeclared_dispatch_amended
    (Navigator.mk [("METHODS", SchemaVal.methodsVal [("GET", Blob.good "d")])]
      "1" "K" none none) "post" none hm
  refine ⟨rfl, h.1, h.2 ?_⟩
  intro v hv
  have hv' : (("post" : String), v)
      ∈ [(("METHODS" : String), SchemaVal.methodsVal [("GET", Blob.good "d")])] := hv
  rw [List.mem_singleton] at hv'
  injection hv' with h1 h2
  exact absurd h1 (by decide)

/-- C9 counterexample: the bracketed segment `[X]` — whose inner name starts
with an uppercase letter — normalizes to the key `__x_`, which carries a
double leading underscore, refuting "wrapped in a single leading and a
single trailing underscore". -/
theorem C9_counterexample :
    create_tree [("GET", "/1/[X]", Blob.good "d")]
      = [("1", SchemaVal.nodeVal [("__x_", SchemaVal.nodeVal
          [("METHODS", SchemaVal.methodsVal [("GET", Blob.good "d")])])])]
    ∧ ("__x_" : String).toList.take 2 = ['_', '_']
    ∧ ("__x_" : String) ≠ "_" ++ "x" ++ "_" := by
  exact ⟨rfl, rfl, by decide⟩

/-- C9 (amended): `create_tree` produces a mapping conforming to §6.1: every
root value is a sub-mapping in which each key is either `METHODS`, holding
the sequence of two-element `[httpMethodName, doc]` pairs, or a
camelCase-normalized segment name (only lowercase letters and underscores)
holding a conforming sub-mapping; and every URL path segment written in
square brackets becomes the key `'_' ++ normalize(inner) ++ '_'` — which has
a single leading underscore exactly when the bracketed name starts with a
lowercase letter. -/
theorem C9_tree_format_amended (eps : List (String × String × Blob)) (k : String)
    (v : SchemaVal) (inner : String) (hmem : (k, v) ∈ create_tree eps) :
    (∃ es, v = SchemaVal.nodeVal es ∧ interiorOkEntries es = true)
    ∧ camelcaseToUnderscore ("[" ++ inner ++ "]")
        = "_" ++ camelcaseToUnderscore inner ++ "_" := by
  exact ⟨create_tree_ok eps (k, v) hmem, camel_bracket inner⟩

/-- C9 witness: the format theorem applied at the concrete endpoint list with
one `GET` endpoint, and the bracket rule at the inner name `idAction`. -/
theorem C9_tree_format_witness :
    ("1", SchemaVal.nodeVal [("actions", SchemaVal.nodeVal
        [("_id_action_", SchemaVal.nodeVal
          [("METHODS", SchemaVal.methodsVal [("GET", Blob.good "d")])])])])
      ∈ create_tree [("GET", "/1/actions/[idAction]", Blob.good "d")]
    ∧ (∃ es, SchemaVal.nodeVal [("actions", SchemaVal.nodeVal
        [("_id_action_", SchemaVal.nodeVal
          [("METHODS", SchemaVal.methodsVal [("GET", Blob.good "d")])])])]
        = SchemaVal.nodeVal es ∧ interiorOkEntries es = true)
    ∧ camelcaseToUnderscore "[idAction]" = "_id_action_" := by
  have hmem : ("1", SchemaVal.nodeVal [("actions", SchemaVal.nodeVal
      [("_id_action_", SchemaVal.nodeVal
        [("METHODS", SchemaVal.methodsVal [("GET", Blob.good "d")])])])])
      ∈ create_tree [("GET", "/1/actions/[idAction]", Blob.good "d")] := by
    show _ ∈ [("1", SchemaVal.nodeVal [("actions", SchemaVal.nodeVal
      [("_id_action_", SchemaVal.nodeVal
        [("METHODS", SchemaVal.methodsVal [("GET", Blob.good "d")])])])])]
    exact List.mem_cons_self _ _
  have h := C9_tree_format_amended _ _ _ "idAction" hmem
  exact ⟨hmem, h.1, h.2⟩

/-- C10: `_api_call` updates the caller's own `params` mapping in place —
after the call the caller's mapping is the original mapping with `key` bound
to the API key (overwriting any caller-supplied `key`, preserving every other
entry in order), and the very same mapping is what the transport receives;
when no `params` is supplied, a fresh mapping containing only `key` is
created and passed to the transport while the caller observes none. -/
theorem C10_params_merge (nav : Navigator) (mname : String)
    (ps : List (String × PyVal)) (k' : String) :
    (apiCall nav mname (some ps)).1 = some (pyDictSet ps "key" (PyVal.ofString nav.apikey))
    ∧ (apiCall nav mname (some ps)).2.params = pyDictSet ps "key" (PyVal.ofString nav.apikey)
    ∧ pyLookup (pyDictSet ps "key" (PyVal.ofString nav.apikey)) "key"
        = some (PyVal.ofString nav.apikey)
    ∧ (k' ≠ "key" → pyLookup (pyDictSet ps "key" (PyVal.ofString nav.apikey)) k'
        = pyLookup ps k')
    ∧ (apiCall nav mname none).1 = none
    ∧ (apiCall nav mname none).2.params = [("key", PyVal.ofString nav.apikey)] := by
  exact ⟨rfl, rfl, pyLookup_pyDictSet_same _ _ _,
    fun h => pyLookup_pyDictSet_other _ _ _ _ h, rfl, rfl⟩

/-- C10 witness: the merge theorem applied at a concrete caller-supplied
mapping that already contains a `key` entry. -/
theorem C10_params_merge_witness :
    ("a" : String) ≠ "key"
    ∧ (apiCall (Navigator.mk [] "1" "K" none none) "get"
        (some [("a", PyVal.ofString "x"), ("key", PyVal.ofString "old")])).1
      = some [("a", PyVal.ofString "x"), ("key", PyVal.ofString "K")]
    ∧ (apiCall (Navigator.mk [] "1" "K" none none) "get"
        (some [("a", PyVal.ofString "x"), ("key", PyVal.ofString "old")])).2.params
      = [("a", PyVal.ofString "x"), ("key", PyVal.ofString "K")]
    ∧ pyLookup [(("a" : String), PyVal.ofString "x"), ("key", PyVal.ofString "K")] "a"
      = pyLookup [(("a" : String), PyVal.ofString "x"), ("key", PyVal.ofString "old")] "a"
    ∧ (apiCall (Navigator.mk [] "1" "K" none none) "get" none).2.params
      = [("key", PyVal.ofString "K")] := by
  have h := C10_params_merge (Navigator.mk [] "1" "K" none none) "get"
    [("a", PyVal.ofString "x"), ("key", PyVal.ofString "old")] "a"
  refine ⟨by decide, ?_, ?_, ?_, h.2.2.2.2.2⟩
  · exact h.1
  · exact h.2.1
  · exact h.2.2.2.1 (by decide)
